import Mathlib

/-!
UpsideDown.cpp: glyph table and formatters of the Raduino display.

Shallow embedding of `src/UpsideDown.cpp`.

* A `char` is modelled by its byte value, a `Nat`; a C string is the list of
  its bytes before the terminating NUL.
* The preprocessor switch `UPSIDE_DOWN` is the `Bool` argument `upsideDown`
  of every definition whose text depends on it.
* The calls to `sprintf` are modelled by the conversions they use
  (`%7ld`, `%d`, `%c`, `%.Ns`), following the C standard.
* Undefined behaviour (an index outside `number_chars`, a write past the end
  of the local buffer `b`) is the result `none`.
* `setupUpsideDown` is modelled by the trace of hardware events it issues.
-/

set_option linter.unusedVariables false

namespace UpsideDown

/-! ## The fragment of `sprintf` used by the module -/

/-- Decimal digits (ASCII codes, most significant first) of a natural number;
the first argument bounds the number of digits produced. -/
def utoaFuel : Nat → Nat → List Nat
  | 0, _ => []
  | fuel + 1, n =>
    if n < 10 then [48 + n] else utoaFuel fuel (n / 10) ++ [48 + n % 10]

/-- Decimal text of a natural number. A number `n` has at most `n + 1` digits,
so the bound never cuts the text short (see `utoa_eq`). -/
def utoa (n : Nat) : List Nat := utoaFuel (n + 1) n

/-- The conversions `%d` and `%ld` without flags: a minus sign for a negative
value, then the decimal digits of the magnitude. -/
def fmtDecimal (v : Int) : List Nat :=
  if v < 0 then '-'.toNat :: utoa v.natAbs else utoa v.toNat

/-- A minimum field width `w`: the text is right-justified and padded with
spaces on the left; a longer text is not truncated. -/
def padLeft (w : Nat) (s : List Nat) : List Nat :=
  List.replicate (w - s.length) ' '.toNat ++ s

/-- The conversion `%.Ns` applied to the pointer `mem + off`: at most `prec`
bytes are copied, and copying stops at the first NUL. -/
def fmtStr (prec : Nat) (mem : List Nat) (off : Nat) : List Nat :=
  ((mem.drop off).take prec).takeWhile (fun c => c != 0)

/-- The marker glyph `(char) 0b10100101` printed with `%c`. -/
def marker : Nat := 0b10100101

/-! ## Glyph table -/

/-- Source: `char number_chars[10]` (only in the upside-down build). -/
def number_chars : List Nat :=
  ['0'.toNat, 0x01, 0x02, 0x03, 0x04, 0x05, '9'.toNat, 0x07, '8'.toNat, '6'.toNat]

/-- The array access `number_chars[i]` for a C `int` index; an index outside
`0..9` is undefined behaviour. -/
def number_chars_at (i : Int) : Option Nat :=
  if 0 ≤ i ∧ i < 10 then number_chars[i.toNat]? else none

def one : List Nat :=
  [0b01110, 0b00100, 0b00100, 0b00100, 0b00100, 0b00110, 0b00100, 0b00000]

def two : List Nat :=
  [0b11111, 0b00010, 0b00100, 0b01000, 0b10000, 0b10001, 0b01110, 0b00000]

def three : List Nat :=
  [0b01110, 0b10001, 0b10000, 0b01000, 0b00100, 0b01000, 0b11111, 0b00000]

def four : List Nat :=
  [0b01000, 0b01000, 0b11111, 0b01001, 0b01010, 0b01100, 0b01000, 0b00000]

def five : List Nat :=
  [0b01110, 0b10001, 0b10000, 0b10000, 0b01111, 0b00001, 0b11111, 0b00000]

def seven : List Nat :=
  [0b00100, 0b00100, 0b00100, 0b01000, 0b01000, 0b10000, 0b11111, 0b00000]

/-- Source: `byte bar[8]`, outside every `#ifdef`. -/
def bar : List Nat :=
  [0b00000, 0b11011, 0b11011, 0b11011, 0b11011, 0b11011, 0b00000, 0b00000]

/-- Source: `byte half_bar[8]`, whose rows are selected by `#ifdef UPSIDE_DOWN`. -/
def half_bar (upsideDown : Bool) : List Nat :=
  if upsideDown then
    [0b00000, 0b00011, 0b00011, 0b00011, 0b00011, 0b00011, 0b00000, 0b00000]
  else
    [0b00000, 0b11000, 0b11000, 0b11000, 0b11000, 0b11000, 0b00000, 0b00000]

/-! ## Display initialisation -/

/-- One externally visible action of `setupUpsideDown`. -/
inductive Event where
  | cli
  | sei
  | noDisplay
  | display
  | delay (ms : Nat)
  | createChar (slot : Nat) (bitmap : List Nat)
  deriving DecidableEq

/-- Source: `setupUpsideDown`, as the sequence of actions it performs. -/
def setupUpsideDown (upsideDown : Bool) : List Event :=
  [Event.cli, Event.noDisplay, Event.delay 25,
   Event.createChar 0 bar, Event.delay 25] ++
  (if upsideDown then
    [Event.createChar 1 one, Event.delay 25,
     Event.createChar 2 two, Event.delay 25,
     Event.createChar 3 three, Event.delay 25,
     Event.createChar 4 four, Event.delay 25,
     Event.createChar 5 five, Event.delay 25,
     Event.createChar 6 (half_bar upsideDown), Event.delay 25,
     Event.createChar 7 seven, Event.delay 25]
   else
    [Event.createChar 6 (half_bar upsideDown), Event.delay 25]) ++
  [Event.display, Event.sei]

/-! ## Formatters -/

/-- The text written by `sprintf(b, "%7ld", frequency)`. -/
def sprintf_7ld (frequency : Int) : List Nat := padLeft 7 (fmtDecimal frequency)

/-- The loop `for (i=0; i<7; i++) br[6-i] = number_chars[b[i]-48];` over the
local array `char br[9]`. -/
def fillBr (b : List Nat) : Option (List Nat) :=
  (List.range 7).foldlM
    (fun br i => do
      let c ← number_chars_at ((b.getD i 0 : Int) - 48)
      pure (br.set (6 - i) c))
    (List.replicate 9 0)

/-- Source: `printFrequency`. The text is built from the global `frequency`;
the parameter `f` is not used by the body. The result is the C string left in
`buffer`. -/
def printFrequency (upsideDown : Bool) (frequency : Int) (f : Nat) :
    Option (List Nat) :=
  let text := sprintf_7ld frequency
  -- the array `char b[10]` holds the text and its terminating NUL
  if text.length + 1 > 10 then none
  else
    let b := text ++ [0]
    if upsideDown then do
      let br ← fillBr b
      let br := br.set 7 0
      pure (fmtStr 2 br 1 ++ [':'.toNat] ++ fmtStr 3 br 3 ++ [marker] ++ fmtStr 1 br 6)
    else
      pure (fmtStr 1 b 0 ++ [marker] ++ fmtStr 3 b 1 ++ [':'.toNat] ++ fmtStr 3 b 4)

/-- Source: `printSignal`. The result is the C string left in `buffer`. -/
def printSignal (upsideDown : Bool) (s : Int) : Option (List Nat) :=
  if upsideDown then
    if s < 10 then do
      let c ← number_chars_at s
      pure [c, 'S'.toNat, ' '.toNat]
    else if s = 10 then do
      let c ← number_chars_at 1
      pure ['0'.toNat, c, '+'.toNat]
    else do
      let c ← number_chars_at 2
      pure ['0'.toNat, c, '+'.toNat]
  else
    if s < 10 then pure ([' '.toNat, 'S'.toNat] ++ fmtDecimal s)
    else pure (['+'.toNat] ++ fmtDecimal s)

/-! ## Reading the display after a half turn -/

/-- Inverse of `number_chars`: the digit character a glyph code stands for.
A byte that is no entry of the table (the colon, the marker, a letter) is left
as it is. -/
def glyphDigit (c : Nat) : Nat :=
  if number_chars.indexOf c < 10 then '0'.toNat + number_chars.indexOf c else c

/-- A line of the display seen after a rotation by 180 degrees: the character
order is reversed and every glyph code is read as the digit it depicts. -/
def rotate180 (line : List Nat) : List Nat := (line.reverse).map glyphDigit

/-- The decimal digits occurring in a line, in order. -/
def digitSeq (line : List Nat) : List Nat :=
  line.filter (fun c => decide ('0'.toNat ≤ c ∧ c ≤ '9'.toNat))

/-- The `i`-th decimal digit, most significant first, of a number written
with seven digits. -/
def digit7 (n i : Nat) : Nat := n / 10 ^ (6 - i) % 10

/-- The array `br` as the assignment `br[6-i] = number_chars[d_i]` describes it:
entry `j` is the glyph code of digit `6 - j` of the text. -/
def brSpec (n j : Nat) : Nat := number_chars.getD (digit7 n (6 - j)) 0

/-! ## Pixels of a glyph -/

/-- Left/right mirror image of a 5-pixel row: bit `i` moves to bit `4 - i`. -/
def mirror5 (row : Nat) : Nat :=
  (List.range 5).foldl (fun acc i => acc + (row / 2 ^ i % 2) * 2 ^ (4 - i)) 0

/-- Whether pixel column `col` (0 is the leftmost) of a row is lit, the most
significant of the five bits being the leftmost column. -/
def pixelLit (row col : Nat) : Bool := col < 5 && Nat.testBit row (4 - col)

/-- The slots of the `createChar` calls of a trace, in order. -/
def uploadSlots : List Event → List Nat
  | [] => []
  | Event.createChar slot _ :: es => slot :: uploadSlots es
  | _ :: es => uploadSlots es

/-- The bitmap a trace uploads to a slot (the last upload counts). -/
def uploaded (slot : Nat) : List Event → Option (List Nat)
  | [] => none
  | Event.createChar k bitmap :: es =>
    match uploaded slot es with
    | some later => some later
    | none => if k = slot then some bitmap else none
  | _ :: es => uploaded slot es

/-- An action of the LCD driver (as opposed to interrupt control and delays). -/
def Event.isLcd : Event → Bool
  | Event.noDisplay => true
  | Event.display => true
  | Event.createChar _ _ => true
  | _ => false

/-- A glyph upload. -/
def Event.isUpload : Event → Bool
  | Event.createChar _ _ => true
  | _ => false

/-! ## Buffers, table indices and interrupt state -/

/-- The number of bytes `sprintf` stores in the destination for a C string:
its characters and the terminating NUL. -/
def bytesWritten (out : List Nat) : Nat := out.length + 1

/-- The seven indices `b[i]-48`, i = 0..6, with which the loop of the
upside-down `printFrequency` reads `number_chars`. -/
def lookupIndices (b : List Nat) : List Int :=
  (List.range 7).map (fun i => (b.getD i 0 : Int) - 48)

/-- The index with which the upside-down `printSignal` reads `number_chars`:
`s` in the first branch, 1 in the second, 2 in the third. -/
def signalLookupIndex (s : Int) : Int :=
  if s < 10 then s else if s = 10 then 1 else 2

/-- The bitmap array the source names after a digit (`one` .. `five`, `seven`);
the digits 0, 6, 8 and 9 have none. -/
def digitBitmap : Nat → Option (List Nat)
  | 1 => some one
  | 2 => some two
  | 3 => some three
  | 4 => some four
  | 5 => some five
  | 7 => some seven
  | _ => none

/-- Runs a trace from a given interrupt state (`cli` disables, `sei` enables)
and checks that every LCD action happens while interrupts are disabled. -/
def lcdOnlyWithInterruptsOff : Bool → List Event → Bool
  | _, [] => true
  | _, Event.cli :: es => lcdOnlyWithInterruptsOff false es
  | _, Event.sei :: es => lcdOnlyWithInterruptsOff true es
  | enabled, e :: es => (!(e.isLcd && enabled)) && lcdOnlyWithInterruptsOff enabled es

/-! ## Facts about the decimal conversion -/

theorem utoaFuel_indep (fuel1 : Nat) : ∀ (fuel2 n : Nat), n < fuel1 → n < fuel2 →
    utoaFuel fuel1 n = utoaFuel fuel2 n := by
  induction fuel1 with
  | zero => intro fuel2 n h; omega
  | succ k ih =>
    intro fuel2 n h1 h2
    cases fuel2 with
    | zero => omega
    | succ m =>
      simp only [utoaFuel]
      by_cases hn : n < 10
      · simp [hn]
      · simp only [hn, if_false]
        rw [ih m (n / 10) (by omega) (by omega)]

/-- The recursion the bounded definition implements: the bound is never hit. -/
theorem utoa_eq (n : Nat) :
    utoa n = if n < 10 then [48 + n] else utoa (n / 10) ++ [48 + n % 10] := by
  unfold utoa
  conv_lhs => rw [utoaFuel]
  by_cases hn : n < 10
  · simp [hn]
  · simp only [hn, if_false]
    rw [utoaFuel_indep n (n / 10 + 1) (n / 10) (by omega) (by omega)]

/-- The text of `utoa` denotes the number it was made from. -/
theorem utoa_value (n : Nat) :
    (utoa n).foldl (fun acc c => 10 * acc + (c - 48)) 0 = n := by
  induction n using Nat.strong_induction_on with
  | _ n ih =>
    rw [utoa_eq]
    by_cases hn : n < 10
    · simp [hn]
    · simp only [hn, if_false, List.foldl_append, List.foldl_cons, List.foldl_nil]
      rw [ih (n / 10) (by omega)]
      omega

theorem utoa_digits (n : Nat) : ∀ c ∈ utoa n, 48 ≤ c ∧ c ≤ 57 := by
  induction n using Nat.strong_induction_on with
  | _ n ih =>
    rw [utoa_eq]
    by_cases hn : n < 10
    · simp [hn]; omega
    · simp only [hn, if_false, List.mem_append, List.mem_singleton]
      rintro c (hc | hc)
      · exact ih (n / 10) (by omega) c hc
      · omega

theorem utoa_length_le (k : Nat) : ∀ n, n < 10 ^ (k + 1) → (utoa n).length ≤ k + 1 := by
  induction k with
  | zero =>
    intro n hn
    rw [utoa_eq]
    simp at hn
    simp [hn]
  | succ k ih =>
    intro n hn
    rw [utoa_eq]
    by_cases h10 : n < 10
    · simp [h10]
    · simp only [h10, if_false, List.length_append, List.length_singleton]
      have : n / 10 < 10 ^ (k + 1) := by
        rw [Nat.div_lt_iff_lt_mul (by norm_num)]
        calc n < 10 ^ (k + 1 + 1) := hn
          _ = 10 ^ (k + 1) * 10 := by ring
      have := ih (n / 10) this
      omega

/-- A seven-digit number is written with exactly its seven digits. -/
theorem utoa_seven (n : Nat) (h0 : 1000000 ≤ n) (h1 : n ≤ 9999999) :
    utoa n = [48 + digit7 n 0, 48 + digit7 n 1, 48 + digit7 n 2, 48 + digit7 n 3,
      48 + digit7 n 4, 48 + digit7 n 5, 48 + digit7 n 6] := by
  rw [utoa_eq, if_neg (by omega), utoa_eq, if_neg (by omega), utoa_eq, if_neg (by omega),
    utoa_eq, if_neg (by omega), utoa_eq, if_neg (by omega), utoa_eq, if_neg (by omega),
    utoa_eq, if_pos (by omega)]
  simp only [digit7, List.append_assoc, List.singleton_append, List.cons.injEq, and_true]
  norm_num
  omega

theorem fmtDecimal_natCast (n : Nat) : fmtDecimal (n : Int) = utoa n := by
  simp [fmtDecimal]

theorem sprintf_7ld_length (n : Nat) (h : n ≤ 9999999) :
    (sprintf_7ld (n : Int)).length = 7 := by
  have hl := utoa_length_le 6 n (by norm_num; omega)
  simp only [sprintf_7ld, padLeft, fmtDecimal_natCast, List.length_append,
    List.length_replicate]
  omega

theorem sprintf_7ld_ne_zero (n : Nat) : ∀ c ∈ sprintf_7ld (n : Int), c ≠ 0 := by
  intro c hc
  simp only [sprintf_7ld, padLeft, fmtDecimal_natCast, List.mem_append,
    List.mem_replicate] at hc
  rcases hc with ⟨_, hc⟩ | hc
  · rw [hc]; decide
  · have := utoa_digits n c hc
    omega

/-- The three `%.Ns` slices of the normal build, when the text in `b` has seven
bytes and none is NUL. -/
theorem normal_slices (t0 t1 t2 t3 t4 t5 t6 : Nat)
    (hnz : ∀ c ∈ [t0, t1, t2, t3, t4, t5, t6], c ≠ 0) :
    fmtStr 1 ([t0, t1, t2, t3, t4, t5, t6] ++ [0]) 0 ++ [marker]
        ++ fmtStr 3 ([t0, t1, t2, t3, t4, t5, t6] ++ [0]) 1 ++ [':'.toNat]
        ++ fmtStr 3 ([t0, t1, t2, t3, t4, t5, t6] ++ [0]) 4 =
      [t0, 0xA5, t1, t2, t3, ':'.toNat, t4, t5, t6] := by
  simp only [List.mem_cons, List.mem_singleton, forall_eq_or_imp, forall_eq,
    List.not_mem_nil, false_implies, implies_true, and_true] at hnz
  obtain ⟨h0, h1, h2, h3, h4, h5, h6⟩ := hnz
  have b0 : (t0 != 0) = true := bne_iff_ne.mpr h0
  have b1 : (t1 != 0) = true := bne_iff_ne.mpr h1
  have b2 : (t2 != 0) = true := bne_iff_ne.mpr h2
  have b3 : (t3 != 0) = true := bne_iff_ne.mpr h3
  have b4 : (t4 != 0) = true := bne_iff_ne.mpr h4
  have b5 : (t5 != 0) = true := bne_iff_ne.mpr h5
  have b6 : (t6 != 0) = true := bne_iff_ne.mpr h6
  simp [fmtStr, List.takeWhile, b0, b1, b2, b3, b4, b5, b6, marker]

/-- A list of length seven, spelled out. -/
theorem list_length_seven {α : Type} (t : List α) (h : t.length = 7) :
    ∃ t0 t1 t2 t3 t4 t5 t6, t = [t0, t1, t2, t3, t4, t5, t6] := by
  match t, h with
  | [t0, t1, t2, t3, t4, t5, t6], _ => exact ⟨t0, t1, t2, t3, t4, t5, t6, rfl⟩

theorem digit7_lt (n i : Nat) : digit7 n i < 10 := Nat.mod_lt _ (by norm_num)

theorem sprintf_7ld_seven (n : Nat) (h0 : 1000000 ≤ n) (h1 : n ≤ 9999999) :
    sprintf_7ld (n : Int) =
      [48 + digit7 n 0, 48 + digit7 n 1, 48 + digit7 n 2, 48 + digit7 n 3,
        48 + digit7 n 4, 48 + digit7 n 5, 48 + digit7 n 6] := by
  simp [sprintf_7ld, padLeft, fmtDecimal_natCast, utoa_seven n h0 h1]

theorem number_chars_at_digit (d : Nat) (h : d < 10) :
    number_chars_at (((48 + d : Nat) : Int) - 48) = some (number_chars.getD d 0) := by
  have e : ((48 + d : Nat) : Int) - 48 = (d : Int) := by push_cast; ring
  rw [e]
  interval_cases d <;> rfl

theorem number_chars_ne_zero (d : Nat) (h : d < 10) : number_chars.getD d 0 ≠ 0 := by
  interval_cases d <;> decide

/-- The loop that fills `br`, run on a text of seven digits. -/
theorem fillBr_digits (d0 d1 d2 d3 d4 d5 d6 : Nat)
    (h0 : d0 < 10) (h1 : d1 < 10) (h2 : d2 < 10) (h3 : d3 < 10)
    (h4 : d4 < 10) (h5 : d5 < 10) (h6 : d6 < 10) :
    fillBr ([48 + d0, 48 + d1, 48 + d2, 48 + d3, 48 + d4, 48 + d5, 48 + d6] ++ [0]) =
      some [number_chars.getD d6 0, number_chars.getD d5 0, number_chars.getD d4 0,
        number_chars.getD d3 0, number_chars.getD d2 0, number_chars.getD d1 0,
        number_chars.getD d0 0, 0, 0] := by
  have r : List.range 7 = [0, 1, 2, 3, 4, 5, 6] := by decide
  simp only [fillBr, r, List.foldlM, List.cons_append, List.nil_append, List.getD_cons_zero,
    List.getD_cons_succ, number_chars_at_digit, h0, h1, h2, h3, h4, h5, h6]
  rfl

/-- The slices of the upside-down build, when no entry of `br` is NUL. -/
theorem upsideDown_slices (b0 b1 b2 b3 b4 b5 b6 : Nat)
    (hnz : ∀ c ∈ [b1, b2, b3, b4, b5, b6], c ≠ 0) :
    fmtStr 2 ([b0, b1, b2, b3, b4, b5, b6, 0, 0].set 7 0) 1 ++ [':'.toNat]
        ++ fmtStr 3 ([b0, b1, b2, b3, b4, b5, b6, 0, 0].set 7 0) 3 ++ [marker]
        ++ fmtStr 1 ([b0, b1, b2, b3, b4, b5, b6, 0, 0].set 7 0) 6 =
      [b1, b2, ':'.toNat, b3, b4, b5, 0xA5, b6] := by
  simp only [List.mem_cons, List.mem_singleton, forall_eq_or_imp, forall_eq,
    List.not_mem_nil, false_implies, implies_true, and_true] at hnz
  obtain ⟨h1, h2, h3, h4, h5, h6⟩ := hnz
  have c1 : (b1 != 0) = true := bne_iff_ne.mpr h1
  have c2 : (b2 != 0) = true := bne_iff_ne.mpr h2
  have c3 : (b3 != 0) = true := bne_iff_ne.mpr h3
  have c4 : (b4 != 0) = true := bne_iff_ne.mpr h4
  have c5 : (b5 != 0) = true := bne_iff_ne.mpr h5
  have c6 : (b6 != 0) = true := bne_iff_ne.mpr h6
  simp [fmtStr, List.takeWhile, c1, c2, c3, c4, c5, c6, marker]

/-- The upside-down output for a seven-digit frequency, in terms of `brSpec`. -/
theorem upsideDown_output_seven_digits (n f : Nat) (h0 : 1000000 ≤ n) (h1 : n ≤ 9999999) :
    printFrequency true (n : Int) f =
      some [brSpec n 1, brSpec n 2, ':'.toNat, brSpec n 3, brSpec n 4, brSpec n 5,
        0xA5, brSpec n 6] := by
  have ht := sprintf_7ld_seven n h0 h1
  have hb := fillBr_digits _ _ _ _ _ _ _ (digit7_lt n 0) (digit7_lt n 1) (digit7_lt n 2)
    (digit7_lt n 3) (digit7_lt n 4) (digit7_lt n 5) (digit7_lt n 6)
  have hs := upsideDown_slices (number_chars.getD (digit7 n 6) 0)
    (number_chars.getD (digit7 n 5) 0) (number_chars.getD (digit7 n 4) 0)
    (number_chars.getD (digit7 n 3) 0) (number_chars.getD (digit7 n 2) 0)
    (number_chars.getD (digit7 n 1) 0) (number_chars.getD (digit7 n 0) 0)
    (by
      intro c hc
      simp only [List.mem_cons, List.mem_singleton, List.not_mem_nil, or_false] at hc
      rcases hc with h | h | h | h | h | h <;> rw [h] <;>
        exact number_chars_ne_zero _ (digit7_lt _ _))
  simp only [printFrequency, ht]
  simp only [List.length_cons, List.length_nil, if_true]
  rw [if_neg (by omega), hb]
  exact congrArg some hs

/-- The normal-build output for a seven-digit frequency, digit by digit. -/
theorem normal_output_seven_digits (n f : Nat) (h0 : 1000000 ≤ n) (h1 : n ≤ 9999999) :
    printFrequency false (n : Int) f =
      some [48 + digit7 n 0, 0xA5, 48 + digit7 n 1, 48 + digit7 n 2, 48 + digit7 n 3,
        ':'.toNat, 48 + digit7 n 4, 48 + digit7 n 5, 48 + digit7 n 6] := by
  have ht := sprintf_7ld_seven n h0 h1
  have hs := normal_slices (48 + digit7 n 0) (48 + digit7 n 1) (48 + digit7 n 2)
    (48 + digit7 n 3) (48 + digit7 n 4) (48 + digit7 n 5) (48 + digit7 n 6)
    (by
      intro c hc
      simp only [List.mem_cons, List.mem_singleton, List.not_mem_nil, or_false] at hc
      omega)
  simp only [printFrequency, ht]
  simp only [List.length_cons, List.length_nil, Bool.false_eq_true, if_false]
  rw [if_neg (by omega)]
  exact congrArg some hs

theorem glyphDigit_number_chars (d : Nat) (h : d < 10) :
    glyphDigit (number_chars.getD d 0) = 48 + d := by
  interval_cases d <;> decide

theorem digitSeq_cons_digit (d : Nat) (h : d < 10) (l : List Nat) :
    digitSeq ((48 + d) :: l) = (48 + d) :: digitSeq l := by
  have : 48 ≤ 48 + d ∧ 48 + d ≤ 57 := by omega
  simp [digitSeq, List.filter, this]

theorem digitSeq_cons_other (c : Nat) (h : c < 48 ∨ 57 < c) (l : List Nat) :
    digitSeq (c :: l) = digitSeq l := by
  have : ¬ (48 ≤ c ∧ c ≤ 57) := by omega
  simp [digitSeq, List.filter, this]

/-- The rotated upside-down line, for any six glyph codes of digits. -/
theorem rotate180_line (d0 d1 d2 d3 d4 d5 : Nat)
    (h0 : d0 < 10) (h1 : d1 < 10) (h2 : d2 < 10) (h3 : d3 < 10) (h4 : d4 < 10)
    (h5 : d5 < 10) :
    rotate180 [number_chars.getD d5 0, number_chars.getD d4 0, ':'.toNat,
        number_chars.getD d3 0, number_chars.getD d2 0, number_chars.getD d1 0, 0xA5,
        number_chars.getD d0 0] =
      [48 + d0, 0xA5, 48 + d1, 48 + d2, 48 + d3, ':'.toNat, 48 + d4, 48 + d5] := by
  have hm : glyphDigit 0xA5 = 0xA5 := by decide
  have hc : glyphDigit ':'.toNat = ':'.toNat := by decide
  simp only [rotate180, List.reverse_cons, List.reverse_nil, List.nil_append,
    List.cons_append, List.map_cons, List.map_nil, glyphDigit_number_chars, h0, h1, h2, h3,
    h4, h5, hm, hc]

theorem utoa_ne_nil (n : Nat) : utoa n ≠ [] := by
  rw [utoa_eq]
  by_cases hn : n < 10 <;> simp [hn]

/-- The mirror image moves the pixel of column `c` to column `4 - c`. -/
theorem pixelLit_mirror5 :
    ∀ (row : Fin 32) (c : Fin 5),
      pixelLit (mirror5 row) c = pixelLit row (4 - (c : Nat)) := by
  decide

/-- The normal build returns nine characters for every frequency that fits the
field. -/
theorem normal_output_length (n f : Nat) (h : n ≤ 9999999) :
    ∃ out, printFrequency false (n : Int) f = some out ∧ out.length = 9 := by
  obtain ⟨t0, t1, t2, t3, t4, t5, t6, ht⟩ := list_length_seven _ (sprintf_7ld_length n h)
  have hnz := sprintf_7ld_ne_zero n
  rw [ht] at hnz
  have hs := normal_slices t0 t1 t2 t3 t4 t5 t6 hnz
  refine ⟨[t0, 0xA5, t1, t2, t3, ':'.toNat, t4, t5, t6], ?_, rfl⟩
  simp only [printFrequency, ht]
  simp only [List.length_cons, List.length_nil, Bool.false_eq_true, if_false]
  rw [if_neg (by omega)]
  exact congrArg some hs

/-- No two digits share a glyph code. -/
theorem number_chars_injective (d e : Nat) (hd : d < 10) (he : e < 10)
    (h : number_chars.getD d 0 = number_chars.getD e 0) : d = e := by
  have key : ∀ a b : Fin 10,
      number_chars.getD (a : Nat) 0 = number_chars.getD (b : Nat) 0 → a = b := by decide
  exact congrArg Fin.val (key ⟨d, hd⟩ ⟨e, he⟩ h)

/-- The last character of the upside-down output is the glyph code of the
leading digit. -/
theorem upsideDown_last_char (n f : Nat) (h0 : 1000000 ≤ n) (h1 : n ≤ 9999999) :
    ∃ u, printFrequency true (n : Int) f = some u ∧
      u.getLast? = some (number_chars.getD (n / 1000000) 0) := by
  refine ⟨_, upsideDown_output_seven_digits n f h0 h1, ?_⟩
  have e : digit7 n 0 = n / 1000000 := by
    simp only [digit7]
    norm_num
    omega
  simp [brSpec, e]

/-- The entries `br[1..5]` depend only on the frequency without its units digit. -/
theorem brSpec_div_ten (n m j : Nat) (h : n / 10 = m / 10) (h1 : 1 ≤ j) (h6 : j ≤ 6) :
    brSpec n j = brSpec m j := by
  have e : digit7 n (6 - j) = digit7 m (6 - j) := by
    simp only [digit7]
    interval_cases j <;> norm_num <;> omega
  simp only [brSpec, e]

/-- For a seven-digit frequency all seven table indices of the loop are digits. -/
theorem lookupIndices_seven_digits (n : Nat) (h0 : 1000000 ≤ n) (h1 : n ≤ 9999999) :
    ∀ i ∈ lookupIndices (sprintf_7ld (n : Int) ++ [0]), 0 ≤ i ∧ i < 10 := by
  have r : List.range 7 = [0, 1, 2, 3, 4, 5, 6] := by decide
  have d0 := digit7_lt n 0
  have d1 := digit7_lt n 1
  have d2 := digit7_lt n 2
  have d3 := digit7_lt n 3
  have d4 := digit7_lt n 4
  have d5 := digit7_lt n 5
  have d6 := digit7_lt n 6
  intro i hi
  simp only [lookupIndices, sprintf_7ld_seven n h0 h1, r, List.map_cons, List.map_nil,
    List.cons_append, List.nil_append, List.getD_cons_zero, List.getD_cons_succ,
    List.mem_cons, List.mem_singleton, List.not_mem_nil, or_false] at hi
  rcases hi with h | h | h | h | h | h | h <;> rw [h] <;> push_cast <;> omega

/-- For a non-negative signal the table index of `printSignal` is in 0..9. -/
theorem signalLookupIndex_in_table (s : Int) (h : 0 ≤ s) :
    0 ≤ signalLookupIndex s ∧ signalLookupIndex s < 10 := by
  unfold signalLookupIndex
  split_ifs <;> omega

/-- The text of `%7ld`, character by character: position `i` holds a blank
while the number has no digit there, and the decimal digit otherwise. -/
theorem sprintf_7ld_field (n : Nat) (h : n ≤ 9999999) :
    sprintf_7ld (n : Int) =
      (List.range 7).map (fun i =>
        if i < 6 ∧ n < 10 ^ (6 - i) then ' '.toNat else '0'.toNat + digit7 n i) := by
  have r : List.range 7 = [0, 1, 2, 3, 4, 5, 6] := by decide
  simp only [sprintf_7ld, fmtDecimal_natCast, r, List.map_cons, List.map_nil, digit7]
  norm_num
  by_cases c1 : n < 10
  · rw [utoa_eq, if_pos (by omega)]
    have a1 : n < 10 := by omega
    have a2 : n < 100 := by omega
    have a3 : n < 1000 := by omega
    have a4 : n < 10000 := by omega
    have a5 : n < 100000 := by omega
    have a6 : n < 1000000 := by omega
    simp [padLeft, List.replicate, a1, a2, a3, a4, a5, a6]
    try omega
  by_cases c2 : n < 100
  · rw [utoa_eq, if_neg (by omega), utoa_eq, if_pos (by omega)]
    have a1 : ¬ n < 10 := by omega
    have a2 : n < 100 := by omega
    have a3 : n < 1000 := by omega
    have a4 : n < 10000 := by omega
    have a5 : n < 100000 := by omega
    have a6 : n < 1000000 := by omega
    simp [padLeft, List.replicate, a1, a2, a3, a4, a5, a6]
    try omega
  by_cases c3 : n < 1000
  · rw [utoa_eq, if_neg (by omega), utoa_eq, if_neg (by omega), utoa_eq, if_pos (by omega)]
    have a1 : ¬ n < 10 := by omega
    have a2 : ¬ n < 100 := by omega
    have a3 : n < 1000 := by omega
    have a4 : n < 10000 := by omega
    have a5 : n < 100000 := by omega
    have a6 : n < 1000000 := by omega
    simp [padLeft, List.replicate, a1, a2, a3, a4, a5, a6]
    try omega
  by_cases c4 : n < 10000
  · rw [utoa_eq, if_neg (by omega), utoa_eq, if_neg (by omega), utoa_eq, if_neg (by omega), utoa_eq, if_pos (by omega)]
    have a1 : ¬ n < 10 := by omega
    have a2 : ¬ n < 100 := by omega
    have a3 : ¬ n < 1000 := by omega
    have a4 : n < 10000 := by omega
    have a5 : n < 100000 := by omega
    have a6 : n < 1000000 := by omega
    simp [padLeft, List.replicate, a1, a2, a3, a4, a5, a6]
    try omega
  by_cases c5 : n < 100000
  · rw [utoa_eq, if_neg (by omega), utoa_eq, if_neg (by omega), utoa_eq, if_neg (by omega), utoa_eq, if_neg (by omega), utoa_eq, if_pos (by omega)]
    have a1 : ¬ n < 10 := by omega
    have a2 : ¬ n < 100 := by omega
    have a3 : ¬ n < 1000 := by omega
    have a4 : ¬ n < 10000 := by omega
    have a5 : n < 100000 := by omega
    have a6 : n < 1000000 := by omega
    simp [padLeft, List.replicate, a1, a2, a3, a4, a5, a6]
    try omega
  by_cases c6 : n < 1000000
  · rw [utoa_eq, if_neg (by omega), utoa_eq, if_neg (by omega), utoa_eq, if_neg (by omega), utoa_eq, if_neg (by omega), utoa_eq, if_neg (by omega), utoa_eq, if_pos (by omega)]
    have a1 : ¬ n < 10 := by omega
    have a2 : ¬ n < 100 := by omega
    have a3 : ¬ n < 1000 := by omega
    have a4 : ¬ n < 10000 := by omega
    have a5 : ¬ n < 100000 := by omega
    have a6 : n < 1000000 := by omega
    simp [padLeft, List.replicate, a1, a2, a3, a4, a5, a6]
    try omega
  rw [utoa_eq, if_neg (by omega), utoa_eq, if_neg (by omega), utoa_eq, if_neg (by omega), utoa_eq, if_neg (by omega), utoa_eq, if_neg (by omega), utoa_eq, if_neg (by omega), utoa_eq, if_pos (by omega)]
  have a1 : ¬ n < 10 := by omega
  have a2 : ¬ n < 100 := by omega
  have a3 : ¬ n < 1000 := by omega
  have a4 : ¬ n < 10000 := by omega
  have a5 : ¬ n < 100000 := by omega
  have a6 : ¬ n < 1000000 := by omega
  simp [padLeft, List.replicate, a1, a2, a3, a4, a5, a6]
  try omega

/-! ## Claims -/

/-- C1. Normal build: for every frequency in [0, 9999999] the text `t` written
by `%7ld` has exactly seven characters and is the right-justified,
space-padded decimal text of the frequency (position i holds a blank while the
frequency is below 10^(6-i), and otherwise the decimal digit of weight
10^(6-i); the last position always holds the units digit), and
`printFrequency` produces the nine characters
t[0], 0xA5, t[1], t[2], t[3], ':', t[4], t[5], t[6], each character of `t`
copied unchanged. -/
theorem printFrequency_normal (frequency : Int) (f : Nat)
    (h0 : 0 ≤ frequency) (h1 : frequency ≤ 9999999) :
    ∃ t0 t1 t2 t3 t4 t5 t6 : Nat,
      sprintf_7ld frequency = [t0, t1, t2, t3, t4, t5, t6] ∧
      [t0, t1, t2, t3, t4, t5, t6] =
        (List.range 7).map (fun i =>
          if i < 6 ∧ frequency.toNat < 10 ^ (6 - i) then ' '.toNat
          else '0'.toNat + digit7 frequency.toNat i) ∧
      printFrequency false frequency f =
        some [t0, 0xA5, t1, t2, t3, ':'.toNat, t4, t5, t6] := by
  obtain ⟨n, rfl⟩ := Int.eq_ofNat_of_zero_le h0
  have hn : n ≤ 9999999 := by exact_mod_cast h1
  have hlen := sprintf_7ld_length n hn
  obtain ⟨t0, t1, t2, t3, t4, t5, t6, ht⟩ := list_length_seven _ hlen
  have hfield := sprintf_7ld_field n hn
  rw [ht] at hfield
  refine ⟨t0, t1, t2, t3, t4, t5, t6, ht, by simpa using hfield, ?_⟩
  have hnz := sprintf_7ld_ne_zero n
  rw [ht] at hnz
  have hs := normal_slices t0 t1 t2 t3 t4 t5 t6 hnz
  simp only [printFrequency, ht]
  simp only [List.length_cons, List.length_nil, Bool.false_eq_true, if_false]
  rw [if_neg (by omega)]
  exact congrArg some hs

theorem printFrequency_normal_witness :
    ∃ t0 t1 t2 t3 t4 t5 t6 : Nat,
      sprintf_7ld 14150 = [t0, t1, t2, t3, t4, t5, t6] ∧
      [t0, t1, t2, t3, t4, t5, t6] =
        (List.range 7).map (fun i =>
          if i < 6 ∧ (14150 : Int).toNat < 10 ^ (6 - i) then ' '.toNat
          else '0'.toNat + digit7 (14150 : Int).toNat i) ∧
      printFrequency false 14150 0 =
        some [t0, 0xA5, t1, t2, t3, ':'.toNat, t4, t5, t6] :=
  printFrequency_normal 14150 0 (by decide) (by decide)

/-- C2. Upside-down build: for every frequency in [1000000, 9999999] the text
written by `%7ld` consists of the seven decimal digits d_0 .. d_6 (most
significant first), and with br[6-i] = number_chars[d_i] for i = 0..6
`printFrequency` produces the eight characters
br[1], br[2], ':', br[3], br[4], br[5], 0xA5, br[6]. -/
theorem printFrequency_upsideDown (frequency : Int) (f : Nat)
    (h0 : 1000000 ≤ frequency) (h1 : frequency ≤ 9999999) :
    (sprintf_7ld frequency =
        (List.range 7).map (fun i => '0'.toNat + digit7 frequency.toNat i)) ∧
    (∀ i, i < 7 →
        brSpec frequency.toNat (6 - i) = number_chars.getD (digit7 frequency.toNat i) 0) ∧
    printFrequency true frequency f =
      some [brSpec frequency.toNat 1, brSpec frequency.toNat 2, ':'.toNat,
        brSpec frequency.toNat 3, brSpec frequency.toNat 4, brSpec frequency.toNat 5,
        0xA5, brSpec frequency.toNat 6] := by
  obtain ⟨n, rfl⟩ := Int.eq_ofNat_of_zero_le (by omega : (0 : Int) ≤ frequency)
  have hn0 : 1000000 ≤ n := by exact_mod_cast h0
  have hn1 : n ≤ 9999999 := by exact_mod_cast h1
  refine ⟨?_, ?_, ?_⟩
  · rw [sprintf_7ld_seven n hn0 hn1]
    rfl
  · intro i hi
    have e : 6 - (6 - i) = i := by omega
    simp only [Int.toNat_ofNat, brSpec, e]
  · simpa using upsideDown_output_seven_digits n f hn0 hn1

theorem printFrequency_upsideDown_witness :
    (sprintf_7ld 7123456 =
        (List.range 7).map (fun i => '0'.toNat + digit7 (7123456 : Int).toNat i)) ∧
    (∀ i, i < 7 →
        brSpec (7123456 : Int).toNat (6 - i) =
          number_chars.getD (digit7 (7123456 : Int).toNat i) 0) ∧
    printFrequency true 7123456 0 =
      some [brSpec (7123456 : Int).toNat 1, brSpec (7123456 : Int).toNat 2, ':'.toNat,
        brSpec (7123456 : Int).toNat 3, brSpec (7123456 : Int).toNat 4,
        brSpec (7123456 : Int).toNat 5, 0xA5, brSpec (7123456 : Int).toNat 6] :=
  printFrequency_upsideDown 7123456 0 (by decide) (by decide)

/-- C3, as stated, fails at frequency 7123456: the upside-down line read after
the rotation shows the six digits 7 1 2 3 4 5, the normal line shows the seven
digits 7 1 2 3 4 5 6, so the two digit sequences differ. -/
theorem roundTrip_counterexample :
    printFrequency true 7123456 0 = some [0x05, 0x04, ':'.toNat, 0x03, 0x02, 0x01, 0xA5, 0x07] ∧
    printFrequency false 7123456 0 =
      some ['7'.toNat, 0xA5, '1'.toNat, '2'.toNat, '3'.toNat, ':'.toNat, '4'.toNat,
        '5'.toNat, '6'.toNat] ∧
    ¬ ∃ u n, printFrequency true 7123456 0 = some u ∧
        printFrequency false 7123456 0 = some n ∧
        digitSeq (rotate180 u) = digitSeq n := by
  have hu : printFrequency true 7123456 0 =
      some [0x05, 0x04, ':'.toNat, 0x03, 0x02, 0x01, 0xA5, 0x07] := by decide
  have hn : printFrequency false 7123456 0 =
      some ['7'.toNat, 0xA5, '1'.toNat, '2'.toNat, '3'.toNat, ':'.toNat, '4'.toNat,
        '5'.toNat, '6'.toNat] := by decide
  refine ⟨hu, hn, ?_⟩
  rintro ⟨u, n, h1, h2, h3⟩
  rw [hu] at h1
  rw [hn] at h2
  cases h1
  cases h2
  revert h3
  decide

/-- C3, amended. For every frequency in [1000000, 9999999] both builds produce a
line; the normal line shows the seven digits of the frequency in order, and the
upside-down line, reversed and with every glyph code mapped back to its digit,
shows the first six of them in the same order (the units digit is absent). -/
theorem roundTrip_six_digits (frequency : Int) (f : Nat)
    (h0 : 1000000 ≤ frequency) (h1 : frequency ≤ 9999999) :
    ∃ u n, printFrequency true frequency f = some u ∧
      printFrequency false frequency f = some n ∧
      digitSeq n = (List.range 7).map (fun i => '0'.toNat + digit7 frequency.toNat i) ∧
      digitSeq (rotate180 u) =
        (List.range 6).map (fun i => '0'.toNat + digit7 frequency.toNat i) ∧
      digitSeq (rotate180 u) = (digitSeq n).take 6 := by
  obtain ⟨m, rfl⟩ := Int.eq_ofNat_of_zero_le (by omega : (0 : Int) ≤ frequency)
  have hm0 : 1000000 ≤ m := by exact_mod_cast h0
  have hm1 : m ≤ 9999999 := by exact_mod_cast h1
  have r7 : List.range 7 = [0, 1, 2, 3, 4, 5, 6] := by decide
  have r6 : List.range 6 = [0, 1, 2, 3, 4, 5] := by decide
  have hrot := rotate180_line (digit7 m 0) (digit7 m 1) (digit7 m 2) (digit7 m 3)
    (digit7 m 4) (digit7 m 5) (digit7_lt m 0) (digit7_lt m 1) (digit7_lt m 2)
    (digit7_lt m 3) (digit7_lt m 4) (digit7_lt m 5)
  have hn : digitSeq [48 + digit7 m 0, 0xA5, 48 + digit7 m 1, 48 + digit7 m 2,
      48 + digit7 m 3, ':'.toNat, 48 + digit7 m 4, 48 + digit7 m 5, 48 + digit7 m 6] =
      [48 + digit7 m 0, 48 + digit7 m 1, 48 + digit7 m 2, 48 + digit7 m 3,
        48 + digit7 m 4, 48 + digit7 m 5, 48 + digit7 m 6] := by
    rw [digitSeq_cons_digit _ (digit7_lt _ _), digitSeq_cons_other _ (by decide),
      digitSeq_cons_digit _ (digit7_lt _ _), digitSeq_cons_digit _ (digit7_lt _ _),
      digitSeq_cons_digit _ (digit7_lt _ _), digitSeq_cons_other _ (by decide),
      digitSeq_cons_digit _ (digit7_lt _ _), digitSeq_cons_digit _ (digit7_lt _ _),
      digitSeq_cons_digit _ (digit7_lt _ _)]
    rfl
  have hu : digitSeq [48 + digit7 m 0, 0xA5, 48 + digit7 m 1, 48 + digit7 m 2,
      48 + digit7 m 3, ':'.toNat, 48 + digit7 m 4, 48 + digit7 m 5] =
      [48 + digit7 m 0, 48 + digit7 m 1, 48 + digit7 m 2, 48 + digit7 m 3,
        48 + digit7 m 4, 48 + digit7 m 5] := by
    rw [digitSeq_cons_digit _ (digit7_lt _ _), digitSeq_cons_other _ (by decide),
      digitSeq_cons_digit _ (digit7_lt _ _), digitSeq_cons_digit _ (digit7_lt _ _),
      digitSeq_cons_digit _ (digit7_lt _ _), digitSeq_cons_other _ (by decide),
      digitSeq_cons_digit _ (digit7_lt _ _), digitSeq_cons_digit _ (digit7_lt _ _)]
    rfl
  refine ⟨_, _, upsideDown_output_seven_digits m f hm0 hm1,
    normal_output_seven_digits m f hm0 hm1, ?_, ?_, ?_⟩
  · rw [hn, r7]; rfl
  · have e : [brSpec m 1, brSpec m 2, ':'.toNat, brSpec m 3, brSpec m 4, brSpec m 5, 0xA5,
        brSpec m 6] = [number_chars.getD (digit7 m 5) 0, number_chars.getD (digit7 m 4) 0,
        ':'.toNat, number_chars.getD (digit7 m 3) 0, number_chars.getD (digit7 m 2) 0,
        number_chars.getD (digit7 m 1) 0, 0xA5, number_chars.getD (digit7 m 0) 0] := rfl
    rw [e, hrot, hu, r6]; rfl
  · have e : [brSpec m 1, brSpec m 2, ':'.toNat, brSpec m 3, brSpec m 4, brSpec m 5, 0xA5,
        brSpec m 6] = [number_chars.getD (digit7 m 5) 0, number_chars.getD (digit7 m 4) 0,
        ':'.toNat, number_chars.getD (digit7 m 3) 0, number_chars.getD (digit7 m 2) 0,
        number_chars.getD (digit7 m 1) 0, 0xA5, number_chars.getD (digit7 m 0) 0] := rfl
    rw [e, hrot, hu, hn]; rfl

theorem roundTrip_six_digits_witness :
    ∃ u n, printFrequency true 7123456 0 = some u ∧
      printFrequency false 7123456 0 = some n ∧
      digitSeq n = (List.range 7).map (fun i => '0'.toNat + digit7 (7123456 : Int).toNat i) ∧
      digitSeq (rotate180 u) =
        (List.range 6).map (fun i => '0'.toNat + digit7 (7123456 : Int).toNat i) ∧
      digitSeq (rotate180 u) = (digitSeq n).take 6 :=
  roundTrip_six_digits 7123456 0 (by decide) (by decide)

/-- C4. For every signal value s in [0, 9]: the normal build produces the three
characters ' ', 'S' and the ASCII digit of s; the upside-down build produces
the three characters number_chars[s], 'S', ' '. -/
theorem printSignal_single_digit (s : Int) (h0 : 0 ≤ s) (h1 : s ≤ 9) :
    printSignal false s = some [' '.toNat, 'S'.toNat, '0'.toNat + s.toNat] ∧
    number_chars[s.toNat]? = some (number_chars.getD s.toNat 0) ∧
    printSignal true s = some [number_chars.getD s.toNat 0, 'S'.toNat, ' '.toNat] := by
  interval_cases s <;> decide

theorem printSignal_single_digit_witness :
    printSignal false 7 = some [' '.toNat, 'S'.toNat, '0'.toNat + (7 : Int).toNat] ∧
    number_chars[(7 : Int).toNat]? = some (number_chars.getD (7 : Int).toNat 0) ∧
    printSignal true 7 = some [number_chars.getD (7 : Int).toNat 0, 'S'.toNat, ' '.toNat] :=
  printSignal_single_digit 7 (by decide) (by decide)

/-- C5, as stated, fails at s = 10 and s = 11: the normal build prints the whole
number after the plus sign ("+10", "+11"), not "+0" and "+1". -/
theorem printSignal_normal_counterexample :
    printSignal false 10 = some ['+'.toNat, '1'.toNat, '0'.toNat] ∧
    printSignal false 10 ≠ some ['+'.toNat, '0'.toNat + (10 : Int).toNat % 10] ∧
    printSignal false 11 = some ['+'.toNat, '1'.toNat, '1'.toNat] ∧
    printSignal false 11 ≠ some ['+'.toNat, '0'.toNat + (11 : Int).toNat % 10] := by
  decide

/-- C5, amended. Normal build: for every signal value s >= 10, `printSignal`
produces '+' followed by the whole decimal text of s: the text of s div 10
(at least one character) and then the last decimal digit of s. In particular
s = 10 gives "+10" and s = 11 gives "+11". -/
theorem printSignal_normal_overload (s : Int) (h : 10 ≤ s) :
    printSignal false s =
      some (['+'.toNat] ++ utoa (s.toNat / 10) ++ ['0'.toNat + s.toNat % 10]) ∧
    utoa (s.toNat / 10) ≠ [] ∧
    printSignal false 10 = some ['+'.toNat, '1'.toNat, '0'.toNat] ∧
    printSignal false 11 = some ['+'.toNat, '1'.toNat, '1'.toNat] := by
  obtain ⟨n, rfl⟩ := Int.eq_ofNat_of_zero_le (by omega : (0 : Int) ≤ s)
  have hn : 10 ≤ n := by exact_mod_cast h
  refine ⟨?_, utoa_ne_nil _, by decide, by decide⟩
  have h10 : ¬ ((n : Int) < 10) := by omega
  simp only [printSignal, Bool.false_eq_true, if_false, h10, fmtDecimal_natCast,
    Int.toNat_ofNat]
  rw [utoa_eq n, if_neg (by omega)]
  simp [pure]

theorem printSignal_normal_overload_witness :
    printSignal false 12 =
      some (['+'.toNat] ++ utoa ((12 : Int).toNat / 10) ++ ['0'.toNat + (12 : Int).toNat % 10]) ∧
    utoa ((12 : Int).toNat / 10) ≠ [] ∧
    printSignal false 10 = some ['+'.toNat, '1'.toNat, '0'.toNat] ∧
    printSignal false 11 = some ['+'.toNat, '1'.toNat, '1'.toNat] :=
  printSignal_normal_overload 12 (by decide)

/-- C6. Upside-down build: `printSignal(10)` produces '0', number_chars[1], '+',
and for every s > 10 `printSignal(s)` produces the same three characters
'0', number_chars[2], '+'. -/
theorem printSignal_upsideDown_overload (s : Int) (h : 10 < s) :
    number_chars[1]? = some (number_chars.getD 1 0) ∧
    number_chars[2]? = some (number_chars.getD 2 0) ∧
    printSignal true 10 = some ['0'.toNat, number_chars.getD 1 0, '+'.toNat] ∧
    printSignal true s = some ['0'.toNat, number_chars.getD 2 0, '+'.toNat] := by
  refine ⟨by decide, by decide, by decide, ?_⟩
  have h1 : ¬ (s < 10) := by omega
  have h2 : ¬ (s = 10) := by omega
  simp only [printSignal, if_true, h1, h2, if_false]
  decide

theorem printSignal_upsideDown_overload_witness :
    number_chars[1]? = some (number_chars.getD 1 0) ∧
    number_chars[2]? = some (number_chars.getD 2 0) ∧
    printSignal true 10 = some ['0'.toNat, number_chars.getD 1 0, '+'.toNat] ∧
    printSignal true 12 = some ['0'.toNat, number_chars.getD 2 0, '+'.toNat] :=
  printSignal_upsideDown_overload 12 (by decide)

/-- C7. The table number_chars has an entry for every digit 0..9; each entry is
an ASCII digit or a control code in 0x00..0x07; 0 maps to '0', 8 to '8', 6 to
'9', 9 to '6', and each d in {1,2,3,4,5,7} maps to the control code d. -/
theorem number_chars_alphabet :
    number_chars.length = 10 ∧
    (∀ d : Fin 10, ∃ c, number_chars[(d : Nat)]? = some c ∧
      (('0'.toNat ≤ c ∧ c ≤ '9'.toNat) ∨ c ≤ 0x07)) ∧
    number_chars[0]? = some '0'.toNat ∧
    number_chars[8]? = some '8'.toNat ∧
    number_chars[6]? = some '9'.toNat ∧
    number_chars[9]? = some '6'.toNat ∧
    [1, 2, 3, 4, 5, 7].map (fun d => number_chars[d]?) =
      [some 0x01, some 0x02, some 0x03, some 0x04, some 0x05, some 0x07] := by
  refine ⟨by decide, ?_, by decide, by decide, by decide, by decide, by decide⟩
  intro d
  refine ⟨number_chars.getD d 0, ?_⟩
  revert d
  decide

/-- C8, as stated, fails for the normal build: its trace has two `createChar`
calls, for slots 0 and 6, not eight calls for slots 0..7. -/
theorem setupUpsideDown_counterexample :
    uploadSlots (setupUpsideDown false) = [0, 6] ∧
    (uploadSlots (setupUpsideDown false)).length ≠ 8 ∧
    ¬ ∀ upsideDown : Bool,
        uploadSlots (setupUpsideDown upsideDown) = [0, 1, 2, 3, 4, 5, 6, 7] := by
  refine ⟨by decide, by decide, ?_⟩
  intro h
  exact absurd (h false) (by decide)

/-- C8, amended. The trace of the upside-down build has exactly 8 `createChar`
calls, for slots 0,1,...,7 in increasing order; the trace of the normal build
has exactly 2, for slots 0 and 6 in increasing order. In each build the trace
splits into a part without LCD action, `noDisplay`, a part whose only LCD
actions are uploads, `display`, and a part without LCD action: `noDisplay`
precedes every upload, `display` follows every upload and there is no enable
between two uploads. -/
theorem setupUpsideDown_uploads :
    uploadSlots (setupUpsideDown true) = [0, 1, 2, 3, 4, 5, 6, 7] ∧
    uploadSlots (setupUpsideDown false) = [0, 6] ∧
    ∀ upsideDown : Bool, ∃ pre mid post,
      setupUpsideDown upsideDown = pre ++ Event.noDisplay :: mid ++ Event.display :: post ∧
      pre.all (fun e => !e.isLcd) = true ∧
      mid.all (fun e => e.isUpload || !e.isLcd) = true ∧
      post.all (fun e => !e.isLcd) = true ∧
      uploadSlots mid = uploadSlots (setupUpsideDown upsideDown) := by
  refine ⟨by decide, by decide, ?_⟩
  intro upsideDown
  refine ⟨[Event.cli], (((setupUpsideDown upsideDown).drop 2).dropLast).dropLast,
    [Event.sei], ?_⟩
  cases upsideDown <;> decide

/-- C10, as stated, fails: with the most significant bit as the leftmost
column, row 1 of the normal `half_bar` has column 0 (the leftmost) lit and no
column right of the middle lit, and row 1 of the upside-down `half_bar` has
column 4 (the rightmost) lit and no column left of the middle lit. -/
theorem half_bar_counterexample :
    (half_bar false)[1]? = some 0b11000 ∧
    pixelLit 0b11000 0 = true ∧ pixelLit 0b11000 3 = false ∧ pixelLit 0b11000 4 = false ∧
    (half_bar true)[1]? = some 0b00011 ∧
    pixelLit 0b00011 4 = true ∧ pixelLit 0b00011 0 = false ∧ pixelLit 0b00011 1 = false ∧
    (¬ ∀ (r : Fin 8) (c : Fin 5),
        pixelLit ((half_bar false).getD r 0) c = true → 3 ≤ (c : Nat)) ∧
    (¬ ∀ (r : Fin 8) (c : Fin 5),
        pixelLit ((half_bar true).getD r 0) c = true → (c : Nat) ≤ 1) := by
  decide

/-- C10, amended. With the most significant bit as the leftmost column, the
normal `half_bar` lights exactly columns 0 and 1 (the left half) of rows 1..5,
and the upside-down `half_bar` lights exactly columns 3 and 4 (the right half)
of rows 1..5. -/
theorem half_bar_columns :
    ∀ (r : Fin 8) (c : Fin 5),
      (pixelLit ((half_bar false).getD r 0) c = true ↔
        (1 ≤ (r : Nat) ∧ (r : Nat) ≤ 5 ∧ (c : Nat) ≤ 1)) ∧
      (pixelLit ((half_bar true).getD r 0) c = true ↔
        (1 ≤ (r : Nat) ∧ (r : Nat) ≤ 5 ∧ 3 ≤ (c : Nat))) := by
  decide

/-- C11, as stated, fails in the normal build: at frequency 7100000 the output
has nine characters, so ten bytes are written counting the terminating NUL. -/
theorem bytesWritten_counterexample :
    printFrequency false 7100000 0 =
      some ['7'.toNat, 0xA5, '1'.toNat, '0'.toNat, '0'.toNat, ':'.toNat, '0'.toNat,
        '0'.toNat, '0'.toNat] ∧
    ¬ ∃ out, printFrequency false 7100000 0 = some out ∧ bytesWritten out ≤ 9 := by
  have hn : printFrequency false 7100000 0 =
      some ['7'.toNat, 0xA5, '1'.toNat, '0'.toNat, '0'.toNat, ':'.toNat, '0'.toNat,
        '0'.toNat, '0'.toNat] := by decide
  refine ⟨hn, ?_⟩
  rintro ⟨out, h1, h2⟩
  rw [hn] at h1
  cases h1
  revert h2
  decide

/-- C11, amended. For every frequency in [0, 9999999] the normal build writes
exactly 10 bytes into the caller's buffer (nine characters and the NUL); for
every frequency in [1000000, 9999999] the upside-down build writes exactly 9
bytes (eight characters and the NUL). -/
theorem printFrequency_bytesWritten (frequency frequencyUD : Int) (f : Nat)
    (h0 : 0 ≤ frequency) (h1 : frequency ≤ 9999999)
    (g0 : 1000000 ≤ frequencyUD) (g1 : frequencyUD ≤ 9999999) :
    (∃ out, printFrequency false frequency f = some out ∧ bytesWritten out = 10) ∧
    (∃ out, printFrequency true frequencyUD f = some out ∧ bytesWritten out = 9) := by
  obtain ⟨n, rfl⟩ := Int.eq_ofNat_of_zero_le h0
  obtain ⟨m, rfl⟩ := Int.eq_ofNat_of_zero_le (by omega : (0 : Int) ≤ frequencyUD)
  have hn : n ≤ 9999999 := by exact_mod_cast h1
  have hm0 : 1000000 ≤ m := by exact_mod_cast g0
  have hm1 : m ≤ 9999999 := by exact_mod_cast g1
  constructor
  · obtain ⟨out, ho, hl⟩ := normal_output_length n f hn
    exact ⟨out, ho, by simp [bytesWritten, hl]⟩
  · exact ⟨_, upsideDown_output_seven_digits m f hm0 hm1, rfl⟩

theorem printFrequency_bytesWritten_witness :
    (∃ out, printFrequency false 14150 0 = some out ∧ bytesWritten out = 10) ∧
    (∃ out, printFrequency true 7100000 0 = some out ∧ bytesWritten out = 9) :=
  printFrequency_bytesWritten 14150 7100000 0 (by decide) (by decide) (by decide) (by decide)

/-- C12. For every signal value s in [0, 99], in the normal build and in the
upside-down build, `printSignal` produces exactly 3 characters, hence writes
exactly 4 bytes counting the terminating NUL. -/
theorem printSignal_three_chars (s : Int) (h0 : 0 ≤ s) (h1 : s ≤ 99) :
    (∃ out, printSignal false s = some out ∧ out.length = 3 ∧ bytesWritten out = 4) ∧
    (∃ out, printSignal true s = some out ∧ out.length = 3 ∧ bytesWritten out = 4) := by
  constructor
  · by_cases h : s < 10
    · refine ⟨[' '.toNat, 'S'.toNat, '0'.toNat + s.toNat], ?_, rfl, rfl⟩
      interval_cases s <;> decide
    · obtain ⟨n, rfl⟩ := Int.eq_ofNat_of_zero_le h0
      have hn0 : 10 ≤ n := by omega
      have hn1 : n ≤ 99 := by omega
      refine ⟨['+'.toNat, 48 + n / 10, 48 + n % 10], ?_, rfl, rfl⟩
      simp only [printSignal, Bool.false_eq_true, if_false, h, fmtDecimal_natCast]
      rw [utoa_eq n, if_neg (by omega), utoa_eq (n / 10), if_pos (by omega)]
      rfl
  · by_cases h : s < 10
    · refine ⟨[number_chars.getD s.toNat 0, 'S'.toNat, ' '.toNat], ?_, rfl, rfl⟩
      interval_cases s <;> decide
    · by_cases h10 : s = 10
      · exact ⟨['0'.toNat, number_chars.getD 1 0, '+'.toNat], by subst h10; decide, rfl, rfl⟩
      · refine ⟨['0'.toNat, number_chars.getD 2 0, '+'.toNat], ?_, rfl, rfl⟩
        simp only [printSignal, if_true, h, h10, if_false]
        decide

theorem printSignal_three_chars_witness :
    (∃ out, printSignal false 42 = some out ∧ out.length = 3 ∧ bytesWritten out = 4) ∧
    (∃ out, printSignal true 42 = some out ∧ out.length = 3 ∧ bytesWritten out = 4) :=
  printSignal_three_chars 42 (by decide) (by decide)

/-- C13, as stated, fails: the frequencies 1000000 and 7000000 give outputs
whose last characters are the glyph codes 0x01 and 0x07 of their leading
digits, which differ. -/
theorem last_char_counterexample :
    printFrequency true 1000000 0 =
      some ['0'.toNat, '0'.toNat, ':'.toNat, '0'.toNat, '0'.toNat, '0'.toNat, 0xA5, 0x01] ∧
    printFrequency true 7000000 0 =
      some ['0'.toNat, '0'.toNat, ':'.toNat, '0'.toNat, '0'.toNat, '0'.toNat, 0xA5, 0x07] ∧
    ¬ ∃ u v, printFrequency true 1000000 0 = some u ∧
        printFrequency true 7000000 0 = some v ∧ u.getLast? = v.getLast? := by
  have hu : printFrequency true 1000000 0 =
      some ['0'.toNat, '0'.toNat, ':'.toNat, '0'.toNat, '0'.toNat, '0'.toNat, 0xA5, 0x01] := by
    decide
  have hv : printFrequency true 7000000 0 =
      some ['0'.toNat, '0'.toNat, ':'.toNat, '0'.toNat, '0'.toNat, '0'.toNat, 0xA5, 0x07] := by
    decide
  refine ⟨hu, hv, ?_⟩
  rintro ⟨u, v, h1, h2, h3⟩
  rw [hu] at h1
  rw [hv] at h2
  cases h1
  cases h2
  revert h3
  decide

/-- C13, amended. Upside-down build: the last character of the output is
br[6] = number_chars[d_0], the glyph code of the most significant digit of the
frequency; for two frequencies in [1000000, 9999999] the last characters are
the same exactly when the most significant digits are the same. -/
theorem last_char_leading_digit (frequency frequency2 : Int) (f : Nat)
    (h0 : 1000000 ≤ frequency) (h1 : frequency ≤ 9999999)
    (g0 : 1000000 ≤ frequency2) (g1 : frequency2 ≤ 9999999) :
    ∃ u v, printFrequency true frequency f = some u ∧
      printFrequency true frequency2 f = some v ∧
      u.getLast? = some (number_chars.getD (frequency.toNat / 1000000) 0) ∧
      u.getLast? = some (brSpec frequency.toNat 6) ∧
      (u.getLast? = v.getLast? ↔ frequency / 1000000 = frequency2 / 1000000) := by
  obtain ⟨n, rfl⟩ := Int.eq_ofNat_of_zero_le (by omega : (0 : Int) ≤ frequency)
  obtain ⟨m, rfl⟩ := Int.eq_ofNat_of_zero_le (by omega : (0 : Int) ≤ frequency2)
  have hn0 : 1000000 ≤ n := by exact_mod_cast h0
  have hn1 : n ≤ 9999999 := by exact_mod_cast h1
  have hm0 : 1000000 ≤ m := by exact_mod_cast g0
  have hm1 : m ≤ 9999999 := by exact_mod_cast g1
  obtain ⟨u, hu, hul⟩ := upsideDown_last_char n f hn0 hn1
  obtain ⟨v, hv, hvl⟩ := upsideDown_last_char m f hm0 hm1
  have e0 : digit7 n (6 - 6) = n / 1000000 := by
    simp only [digit7]
    norm_num
    omega
  have e : brSpec n 6 = number_chars.getD (n / 1000000) 0 := by
    simp only [brSpec, e0]
  refine ⟨u, v, hu, hv, by simpa using hul, by simpa [e] using hul, ?_⟩
  rw [hul, hvl]
  constructor
  · intro h
    have h' := number_chars_injective (n / 1000000) (m / 1000000) (by omega) (by omega)
      (Option.some.inj h)
    exact_mod_cast h'
  · intro h
    have h' : n / 1000000 = m / 1000000 := by exact_mod_cast h
    rw [h']

theorem last_char_leading_digit_witness :
    ∃ u v, printFrequency true 7123456 0 = some u ∧
      printFrequency true 7000000 0 = some v ∧
      u.getLast? = some (number_chars.getD ((7123456 : Int).toNat / 1000000) 0) ∧
      u.getLast? = some (brSpec (7123456 : Int).toNat 6) ∧
      (u.getLast? = v.getLast? ↔ (7123456 : Int) / 1000000 = 7000000 / 1000000) :=
  last_char_leading_digit 7123456 7000000 0 (by decide) (by decide) (by decide) (by decide)

/-- C14: the code at the failing input. Frequency 999999 fits the 7-digit field,
its text begins with a space, and the first lookup of the upside-down loop
uses the index ' ' - 48 = -16, outside the table: the behaviour is undefined. -/
theorem lookup_outside_table :
    sprintf_7ld 999999 =
      [' '.toNat, '9'.toNat, '9'.toNat, '9'.toNat, '9'.toNat, '9'.toNat, '9'.toNat] ∧
    lookupIndices (sprintf_7ld 999999 ++ [0]) = [-16, 9, 9, 9, 9, 9, 9] ∧
    number_chars_at (-16) = none ∧
    fillBr (sprintf_7ld 999999 ++ [0]) = none ∧
    printFrequency true 999999 0 = none := by
  decide

/-- C15. Upside-down build: `setupUpsideDown` uploads `bar` to slot 0,
`half_bar` to slot 6 and, for d in {1,2,3,4,5,7}, the bitmap named after digit
d to slot d; every control-code entry number_chars[d] is d itself and names
the slot that holds the bitmap of digit d; no entry names slot 0 or slot 6. -/
theorem glyph_slots_match_alphabet :
    uploaded 0 (setupUpsideDown true) = some bar ∧
    uploaded 6 (setupUpsideDown true) = some (half_bar true) ∧
    [1, 2, 3, 4, 5, 7].map (fun d => uploaded d (setupUpsideDown true)) =
      [some one, some two, some three, some four, some five, some seven] ∧
    (∀ d : Fin 10, number_chars.getD (d : Nat) 0 ≤ 0x07 →
      number_chars.getD (d : Nat) 0 = (d : Nat) ∧
      (digitBitmap d).isSome = true ∧
      uploaded (number_chars.getD (d : Nat) 0) (setupUpsideDown true) = digitBitmap d) ∧
    (∀ d : Fin 10, number_chars.getD (d : Nat) 0 ≠ 0 ∧ number_chars.getD (d : Nat) 0 ≠ 6) := by
  decide

/-- C16. In both builds the trace of `setupUpsideDown` starts with `cli` and
ends with `sei`; everything between them contains no `cli` or `sei` and holds
all LCD actions of the trace, so every LCD action (`noDisplay`, each
`createChar`, `display`) happens while interrupts are disabled. -/
theorem setupUpsideDown_critical_section :
    ∀ upsideDown : Bool,
      (setupUpsideDown upsideDown).head? = some Event.cli ∧
      (setupUpsideDown upsideDown).getLast? = some Event.sei ∧
      (∃ mid, setupUpsideDown upsideDown = Event.cli :: mid ++ [Event.sei] ∧
        mid.all (fun e => decide (e ≠ Event.cli ∧ e ≠ Event.sei)) = true ∧
        mid.filter Event.isLcd = (setupUpsideDown upsideDown).filter Event.isLcd) ∧
      lcdOnlyWithInterruptsOff true (setupUpsideDown upsideDown) = true := by
  intro upsideDown
  refine ⟨?_, ?_, ⟨((setupUpsideDown upsideDown).drop 1).dropLast, ?_⟩, ?_⟩ <;>
    cases upsideDown <;> decide

/-- C17. number_chars is injective on 0..9. For every frequency in
[1000000, 9999999] the upside-down output has 8 characters, the normal output
9, and the upside-down output reversed with every glyph code replaced by its
digit is exactly the first 8 characters of the normal output. A second
frequency with the same value of frequency div 10 gives the same upside-down
output: the units digit is never shown. -/
theorem rotate180_first_eight (frequency frequency2 : Int) (f : Nat)
    (h0 : 1000000 ≤ frequency) (h1 : frequency ≤ 9999999)
    (hd : frequency / 10 = frequency2 / 10) :
    (∀ d e : Fin 10,
      number_chars.getD (d : Nat) 0 = number_chars.getD (e : Nat) 0 → d = e) ∧
    (∃ u n, printFrequency true frequency f = some u ∧
      printFrequency false frequency f = some n ∧
      u.length = 8 ∧ n.length = 9 ∧ rotate180 u = n.take 8) ∧
    printFrequency true frequency f = printFrequency true frequency2 f := by
  obtain ⟨n, rfl⟩ := Int.eq_ofNat_of_zero_le (by omega : (0 : Int) ≤ frequency)
  obtain ⟨m, rfl⟩ := Int.eq_ofNat_of_zero_le (by omega : (0 : Int) ≤ frequency2)
  have hn0 : 1000000 ≤ n := by exact_mod_cast h0
  have hn1 : n ≤ 9999999 := by exact_mod_cast h1
  have hnm : n / 10 = m / 10 := by exact_mod_cast hd
  have hm0 : 1000000 ≤ m := by omega
  have hm1 : m ≤ 9999999 := by omega
  refine ⟨by decide, ⟨_, _, upsideDown_output_seven_digits n f hn0 hn1,
    normal_output_seven_digits n f hn0 hn1, rfl, rfl, ?_⟩, ?_⟩
  · exact rotate180_line (digit7 n 0) (digit7 n 1) (digit7 n 2) (digit7 n 3)
      (digit7 n 4) (digit7 n 5) (digit7_lt n 0) (digit7_lt n 1) (digit7_lt n 2)
      (digit7_lt n 3) (digit7_lt n 4) (digit7_lt n 5)
  · rw [upsideDown_output_seven_digits n f hn0 hn1,
      upsideDown_output_seven_digits m f hm0 hm1,
      brSpec_div_ten n m 1 hnm (by decide) (by decide),
      brSpec_div_ten n m 2 hnm (by decide) (by decide),
      brSpec_div_ten n m 3 hnm (by decide) (by decide),
      brSpec_div_ten n m 4 hnm (by decide) (by decide),
      brSpec_div_ten n m 5 hnm (by decide) (by decide),
      brSpec_div_ten n m 6 hnm (by decide) (by decide)]

theorem rotate180_first_eight_witness :
    (∀ d e : Fin 10,
      number_chars.getD (d : Nat) 0 = number_chars.getD (e : Nat) 0 → d = e) ∧
    (∃ u n, printFrequency true 7123456 0 = some u ∧
      printFrequency false 7123456 0 = some n ∧
      u.length = 8 ∧ n.length = 9 ∧ rotate180 u = n.take 8) ∧
    printFrequency true 7123456 0 = printFrequency true 7123459 0 :=
  rotate180_first_eight 7123456 7123459 0 (by decide) (by decide) (by decide)

/-- C18. In both builds the output of `printFrequency` is determined by the
global `frequency` alone: two values of the parameter f give the same output. -/
theorem printFrequency_ignores_parameter (upsideDown : Bool) (frequency : Int)
    (f1 f2 : Nat) :
    printFrequency upsideDown frequency f1 = printFrequency upsideDown frequency f2 :=
  rfl

/-- C19. For every signal value s in [0, 10] both builds produce a text, and
the upside-down text reversed with every glyph code replaced by its digit is
the normal text. For s = 11 this fails: the rotated upside-down text reads
"+20", the normal text is "+11". -/
theorem printSignal_roundTrip (s : Int) (h0 : 0 ≤ s) (h1 : s ≤ 10) :
    (printSignal false s).isSome = true ∧
    (printSignal true s).map rotate180 = printSignal false s ∧
    (printSignal true 11).map rotate180 = some ['+'.toNat, '2'.toNat, '0'.toNat] ∧
    printSignal false 11 = some ['+'.toNat, '1'.toNat, '1'.toNat] ∧
    (printSignal true 11).map rotate180 ≠ printSignal false 11 := by
  interval_cases s <;> decide

theorem printSignal_roundTrip_witness :
    (printSignal false 6).isSome = true ∧
    (printSignal true 6).map rotate180 = printSignal false 6 ∧
    (printSignal true 11).map rotate180 = some ['+'.toNat, '2'.toNat, '0'.toNat] ∧
    printSignal false 11 = some ['+'.toNat, '1'.toNat, '1'.toNat] ∧
    (printSignal true 11).map rotate180 ≠ printSignal false 11 :=
  printSignal_roundTrip 6 (by decide) (by decide)

/-- C20. No entry of number_chars is the NUL byte, and for every frequency in
[1000000, 9999999] the upside-down output of `printFrequency` has exactly 8
characters, none of them 0x00. -/
theorem upsideDown_output_no_nul (frequency : Int) (f : Nat)
    (h0 : 1000000 ≤ frequency) (h1 : frequency ≤ 9999999) :
    (∀ d : Fin 10, number_chars.getD (d : Nat) 0 ≠ 0x00) ∧
    ∃ u, printFrequency true frequency f = some u ∧ u.length = 8 ∧
      ∀ c ∈ u, c ≠ 0x00 := by
  obtain ⟨n, rfl⟩ := Int.eq_ofNat_of_zero_le (by omega : (0 : Int) ≤ frequency)
  have hn0 : 1000000 ≤ n := by exact_mod_cast h0
  have hn1 : n ≤ 9999999 := by exact_mod_cast h1
  refine ⟨by decide, _, upsideDown_output_seven_digits n f hn0 hn1, rfl, ?_⟩
  intro c hc
  simp only [List.mem_cons, List.mem_singleton, List.not_mem_nil, or_false] at hc
  rcases hc with h | h | h | h | h | h | h | h
  · rw [h]; exact number_chars_ne_zero _ (digit7_lt _ _)
  · rw [h]; exact number_chars_ne_zero _ (digit7_lt _ _)
  · rw [h]; decide
  · rw [h]; exact number_chars_ne_zero _ (digit7_lt _ _)
  · rw [h]; exact number_chars_ne_zero _ (digit7_lt _ _)
  · rw [h]; exact number_chars_ne_zero _ (digit7_lt _ _)
  · rw [h]; decide
  · rw [h]; exact number_chars_ne_zero _ (digit7_lt _ _)

theorem upsideDown_output_no_nul_witness :
    (∀ d : Fin 10, number_chars.getD (d : Nat) 0 ≠ 0x00) ∧
    ∃ u, printFrequency true 7123456 0 = some u ∧ u.length = 8 ∧
      ∀ c ∈ u, c ≠ 0x00 :=
  upsideDown_output_no_nul 7123456 0 (by decide) (by decide)

end UpsideDown
